import Mathlib

/-!
Shallow embedding of the peer-to-peer chunk transfer core
(`src/packet.py`, `src/connection.py`, `src/reliable_transfer.py`,
`src/handshake.py`).  Byte strings are modelled as `List Nat`, Python
floats as `ℚ`, Python ints as `Nat`/`ℤ`, and Python dicts as association
lists in insertion order.  Each definition mirrors one Python function.
-/

set_option maxHeartbeats 1000000

set_option maxRecDepth 100000

/-! ## Packet codec (`src/packet.py`) -/

def BUF_SIZE : Nat := 1400

def HEADER_LEN : Nat := 12

def MAX_PAYLOAD_SIZE : Nat := BUF_SIZE - HEADER_LEN

def CHUNK_SIZE : Nat := 512 * 1024

/-- Error sites of the codec: Python raises `ValueError` (or
`OverflowError` from `htons`/`htonl`); we identify the raise site. -/
inductive PktError where
  | tooShort
  | lengthMismatch
  | badHashPayload
  | oversizeData
  | emptyHashes
  | overflow
deriving DecidableEq

structure PacketInfo where
  pkt_type : Nat
  header_len : Nat
  pkt_len : Nat
  seq_num : Nat
  ack_num : Nat
  payload : List Nat
deriving DecidableEq

/-- Big-endian bytes of a `u16` (the on-wire result of `htons` + pack). -/
def toB2 (n : Nat) : List Nat := [n / 256 % 256, n % 256]

/-- Big-endian bytes of a `u32` (the on-wire result of `htonl` + pack). -/
def toB4 (n : Nat) : List Nat :=
  [n / 16777216 % 256, n / 65536 % 256, n / 256 % 256, n % 256]

def fromB2 (b1 b0 : Nat) : Nat := 256 * b1 + b0

def fromB4 (b3 b2 b1 b0 : Nat) : Nat :=
  16777216 * b3 + 65536 * b2 + 256 * b1 + b0

/-- `struct.pack(HEADER_FMT, t, HEADER_LEN, htons pl, htonl s, htonl a)`. -/
def mkHeader (t pl s a : Nat) : List Nat :=
  t :: HEADER_LEN :: (toB2 pl ++ toB4 s ++ toB4 a)

def build_who_has_packet (chunk_hashes : List (List Nat)) :
    Except PktError (List Nat) :=
  if chunk_hashes = [] then .error .emptyHashes
  else
    let payload := chunk_hashes.flatten
    if 65536 ≤ HEADER_LEN + payload.length then .error .overflow
    else .ok (mkHeader 0 (HEADER_LEN + payload.length) 0 0 ++ payload)

def build_i_have_packet (chunk_hashes : List (List Nat)) :
    Except PktError (List Nat) :=
  if chunk_hashes = [] then .error .emptyHashes
  else
    let payload := chunk_hashes.flatten
    if 65536 ≤ HEADER_LEN + payload.length then .error .overflow
    else .ok (mkHeader 1 (HEADER_LEN + payload.length) 0 0 ++ payload)

def build_get_packet (chunk_hash : List Nat) : Except PktError (List Nat) :=
  if chunk_hash.length ≠ 20 then .error .badHashPayload
  else .ok (mkHeader 2 (HEADER_LEN + chunk_hash.length) 0 0 ++ chunk_hash)

def build_data_packet (seq_num : Nat) (data : List Nat) :
    Except PktError (List Nat) :=
  if MAX_PAYLOAD_SIZE < data.length then .error .oversizeData
  else if 4294967296 ≤ seq_num then .error .overflow
  else .ok (mkHeader 3 (HEADER_LEN + data.length) seq_num 0 ++ data)

def build_ack_packet (ack_num : Nat) : Except PktError (List Nat) :=
  if 4294967296 ≤ ack_num then .error .overflow
  else .ok (mkHeader 4 HEADER_LEN 0 ack_num)

def build_denied_packet : List Nat := mkHeader 5 HEADER_LEN 0 0

/-- `parse_packet`: reject datagrams shorter than the 12-byte header,
unpack the header, reject when the declared `pkt_len` disagrees with the
actual length, and return the payload `packet[header_len:]`. -/
def parse_packet (packet : List Nat) : Except PktError PacketInfo :=
  match packet with
  | t :: hl :: l1 :: l0 :: s3 :: s2 :: s1 :: s0 :: a3 :: a2 :: a1 :: a0 :: rest =>
    let pkt_len := fromB2 l1 l0
    if HEADER_LEN + rest.length ≠ pkt_len then .error .lengthMismatch
    else
      .ok ⟨t, hl, pkt_len, fromB4 s3 s2 s1 s0, fromB4 a3 a2 a1 a0,
        (t :: hl :: l1 :: l0 :: s3 :: s2 :: s1 :: s0 ::
          a3 :: a2 :: a1 :: a0 :: rest).drop hl⟩
  | _ => .error .tooShort

/-- `extract_chunk_hashes`: split a WHOHAS/IHAVE payload into 20-byte
groups, mirroring the Python `range(0, len(payload), 20)` loop. -/
def extract_chunk_hashes (payload : List Nat) :
    Except PktError (List (List Nat)) :=
  if payload.length % 20 ≠ 0 then .error .badHashPayload
  else .ok ((List.range ((payload.length + 19) / 20)).map
      (fun i => (payload.drop (20 * i)).take 20))

/-! ## Connection state (`src/connection.py`) -/

inductive ConnectionState where
  | idle
  | handshake
  | transfer
  | complete
  | error
deriving DecidableEq

inductive TransferDirection where
  | upload
  | download
deriving DecidableEq

/-- Python `int(q)` on an exact rational: truncation toward zero. -/
def pyInt (q : ℚ) : ℤ := q.num.tdiv q.den

structure Connection where
  direction : TransferDirection
  state : ConnectionState
  seq_num : Nat
  ack_num : Nat
  send_buffer : List (Nat × List Nat)
  recv_buffer : List (Nat × List Nat)
  chunk_data : List Nat
  cwnd : ℚ
  ssthresh : ℤ
  estimated_rtt : ℚ
  dev_rtt : ℚ
  timeout_interval : ℚ
  last_send_time : ℚ
  last_ack_time : ℚ
  duplicate_ack_count : Nat
  retransmission_count : Nat
  packets_sent : Nat
  packets_acked : Nat
  packets_lost : Nat
  bytes_transferred : Nat
  first_packet_time : Option ℚ
deriving DecidableEq

/-- `Connection.__init__` (the dynamically added `first_packet_time`
attribute starts absent, modelled as `none`). -/
def Connection.init (direction : TransferDirection) : Connection where
  direction := direction
  state := ConnectionState.idle
  seq_num := 0
  ack_num := 0
  send_buffer := []
  recv_buffer := []
  chunk_data := []
  cwnd := 1
  ssthresh := 64
  estimated_rtt := 1
  dev_rtt := 1 / 2
  timeout_interval := 1 + 4 * (1 / 2)
  last_send_time := 0
  last_ack_time := 0
  duplicate_ack_count := 0
  retransmission_count := 0
  packets_sent := 0
  packets_acked := 0
  packets_lost := 0
  bytes_transferred := 0
  first_packet_time := none

def Connection.update_state (c : Connection) (s : ConnectionState) : Connection :=
  { c with state := s }

def Connection.is_active (c : Connection) : Bool :=
  c.state == ConnectionState.handshake || c.state == ConnectionState.transfer

def Connection.is_upload (c : Connection) : Bool :=
  c.direction == TransferDirection.upload

def Connection.is_download (c : Connection) : Bool :=
  c.direction == TransferDirection.download

def Connection.should_retransmit (c : Connection) (current_time : ℚ) : Bool :=
  decide (c.timeout_interval < current_time - c.last_send_time)

def Connection.update_timeout_on_ack (c : Connection) (sample_rtt : ℚ) :
    Connection :=
  let alpha : ℚ := 15 / 100
  let beta : ℚ := 3 / 10
  let est := (1 - alpha) * c.estimated_rtt + alpha * sample_rtt
  let dev := (1 - beta) * c.dev_rtt + beta * |sample_rtt - est|
  { c with estimated_rtt := est, dev_rtt := dev,
           timeout_interval := est + 4 * dev }

def Connection.update_cwnd_on_ack (c : Connection) : Connection :=
  if c.cwnd < (c.ssthresh : ℚ) then { c with cwnd := c.cwnd + 1 }
  else { c with cwnd := c.cwnd + 1 / c.cwnd }

def Connection.update_cwnd_on_loss (c : Connection) : Connection :=
  { c with ssthresh := max (pyInt (c.cwnd / 2)) 2, cwnd := 1 }

def Connection.get_send_window (c : Connection) : ℤ :=
  max 1 (pyInt c.cwnd)

def Connection.can_send_more (c : Connection) : Bool :=
  c.is_upload && decide ((c.seq_num : ℤ) - (c.ack_num : ℤ) < c.get_send_window)

def Connection.add_to_send_buffer (c : Connection) (seq_num : Nat)
    (data : List Nat) : Connection :=
  { c with send_buffer := c.send_buffer ++ [(seq_num, data)] }

/-! Python-dict operations on association lists (first binding wins;
`add_received_data` only ever inserts an absent key, so keys stay
distinct and insertion order matches Python). -/

def dictGet (d : List (Nat × List Nat)) (k : Nat) : Option (List Nat) :=
  (d.find? (fun p => p.1 == k)).map Prod.snd

def dictMaxKey (d : List (Nat × List Nat)) : Nat :=
  d.foldr (fun p m => max p.1 m) 0

/-- `Connection.handle_ack` (new ACK: advance, prune the send buffer,
grow the window; duplicate ACK: bump the duplicate counter). -/
def Connection.handle_ack (c : Connection) (ack_num : Nat) (now : ℚ) :
    Connection × Bool :=
  if c.ack_num < ack_num then
    let c1 := { c with ack_num := ack_num, duplicate_ack_count := 0,
                       last_ack_time := now,
                       send_buffer := c.send_buffer.filter
                         (fun p => ack_num < p.1) }
    let c2 := c1.update_cwnd_on_ack
    ({ c2 with packets_acked := c2.packets_acked + 1 }, true)
  else
    ({ c with duplicate_ack_count := c.duplicate_ack_count + 1 }, false)

def Connection.should_fast_retransmit (c : Connection) : Bool :=
  decide (3 ≤ c.duplicate_ack_count)

/-- The `while self.ack_num + 1 in self.recv_buffer` drain loop of
`add_received_data`, on the components it touches.  The fuel
`dictMaxKey B + 1 - ack` chosen in `drainRecv` always suffices: the loop
can only advance `ack` while `ack + 1` is a key, and every key is at
most `dictMaxKey B`. -/
def drainLoop : Nat → List (Nat × List Nat) → Nat → List Nat → Nat × List Nat
  | 0, _, ack, chunk => (ack, chunk)
  | fuel + 1, B, ack, chunk =>
    match dictGet B (ack + 1) with
    | some d => drainLoop fuel B (ack + 1) (chunk ++ d)
    | none => (ack, chunk)

def drainRecv (B : List (Nat × List Nat)) (ack : Nat) (chunk : List Nat) :
    Nat × List Nat :=
  drainLoop (dictMaxKey B + 1 - ack) B ack chunk

/-- `Connection.add_received_data`: ignore non-download connections and
duplicate sequence numbers; otherwise store the packet and drain the
contiguous run starting at `ack_num + 1` into `chunk_data`.  Drained
keys are never removed from `recv_buffer` (as in the source). -/
def Connection.add_received_data (c : Connection) (seq_num : Nat)
    (data : List Nat) : Connection × Bool :=
  if c.direction ≠ TransferDirection.download then (c, false)
  else if (dictGet c.recv_buffer seq_num).isSome = true then (c, false)
  else
    let B := c.recv_buffer ++ [(seq_num, data)]
    let r := drainRecv B c.ack_num c.chunk_data
    ({ c with recv_buffer := B,
              bytes_transferred := c.bytes_transferred + data.length,
              ack_num := r.1, chunk_data := r.2 }, true)

def Connection.is_chunk_complete (c : Connection) (expected_size : Nat) : Bool :=
  c.is_download && decide (expected_size ≤ c.chunk_data.length)

/-! ## Reliable transfer (`src/reliable_transfer.py`).  The manager is
modelled per connection: a `Connection` stands for the entry the
datagram's source address selects, and the connection-lookup guard
`conn.state == ConnectionState.TRANSFER` becomes a state test.  Emitted
datagrams are collected in a list. -/

inductive SentPkt where
  | data (seq_num : Nat) (payload : List Nat)
  | ack (ack_num : Nat)
deriving DecidableEq

/-- The sequence (or ack) numbers of a list of emitted datagrams. -/
def sentSeqs (pkts : List SentPkt) : List Nat :=
  pkts.map (fun p => match p with
    | SentPkt.data s _ => s
    | SentPkt.ack a => a)

/-- `create_download_connection` (with the manager's optional fixed
timeout). -/
def create_download_connection (custom_timeout : Option ℚ) : Connection :=
  let c := Connection.init TransferDirection.download
  let c := match custom_timeout with
    | some t => { c with timeout_interval := t }
    | none => c
  c.update_state ConnectionState.transfer

/-- `create_upload_connection`: split the chunk into `⌈len/1388⌉`
packets numbered from 1; no chunk data means `Error`. -/
def create_upload_connection (custom_timeout : Option ℚ)
    (chunk_data : List Nat) : Connection :=
  let c := Connection.init TransferDirection.upload
  let c := match custom_timeout with
    | some t => { c with timeout_interval := t }
    | none => c
  if chunk_data = [] then c.update_state ConnectionState.error
  else
    let n := (chunk_data.length + (MAX_PAYLOAD_SIZE - 1)) / MAX_PAYLOAD_SIZE
    let c := (List.range n).foldl
      (fun acc i =>
        acc.add_to_send_buffer (i + 1)
          ((chunk_data.drop (i * MAX_PAYLOAD_SIZE)).take MAX_PAYLOAD_SIZE)) c
    c.update_state ConnectionState.transfer

/-- The `while` loop of `send_data_packets`.  `max_seq` is
`len(send_buffer)` captured before the loop; the loop emits at most
`max_seq` packets, so the fuel `max_seq + 1` chosen below never cuts it
short. -/
def sendLoop : Nat → Connection → ℚ → Nat → Nat → Connection × List SentPkt
  | 0, c, _, _, _ => (c, [])
  | fuel + 1, c, now, next_seq, max_seq =>
    if next_seq ≤ max_seq ∧
        (next_seq : ℤ) ≤ (c.ack_num : ℤ) + c.get_send_window then
      match dictGet c.send_buffer next_seq with
      | none => (c, [])
      | some d =>
        let c1 := { c with last_send_time := now,
                           packets_sent := c.packets_sent + 1,
                           seq_num := next_seq }
        let r := sendLoop fuel c1 now (next_seq + 1) max_seq
        (r.1, SentPkt.data next_seq d :: r.2)
    else (c, [])

/-- `send_data_packets`: greedy emission starting at
`max(seq_num, ack_num + 1)`, capped by the *current* length of
`send_buffer` and by `ack_num + send_window`. -/
def send_data_packets (c : Connection) (now : ℚ) : Connection × List SentPkt :=
  if c.can_send_more = true then
    sendLoop (c.send_buffer.length + 1) c now
      (max c.seq_num (c.ack_num + 1)) c.send_buffer.length
  else (c, [])

/-- `start_data_upload`: only a connection in `Transfer` starts sending. -/
def start_data_upload (c : Connection) (now : ℚ) :
    Connection × List SentPkt × Bool :=
  if c.state ≠ ConnectionState.transfer then (c, [], false)
  else
    let r := send_data_packets c now
    (r.1, r.2, true)

/-- `trigger_fast_retransmit`: loss update, resend `ack_num + 1` if it
is still buffered, reset the duplicate counter. -/
def trigger_fast_retransmit (c : Connection) (now : ℚ) :
    Connection × List SentPkt :=
  let c1 := c.update_cwnd_on_loss
  let c2 := { c1 with retransmission_count := c1.retransmission_count + 1 }
  match dictGet c2.send_buffer (c2.ack_num + 1) with
  | some d =>
    ({ c2 with last_send_time := now, duplicate_ack_count := 0 },
      [SentPkt.data (c2.ack_num + 1) d])
  | none => ({ c2 with duplicate_ack_count := 0 }, [])

/-- `handle_ack_packet` for the upload connection the source address
selects (`none` found ⟷ state ≠ Transfer).  Returns the updated
connection, the emitted datagrams, and whether the chunk hash was
returned (upload declared complete).  The `packet_times` RTT branch is
dead code: no line of the source ever sets that attribute. -/
def handle_ack_packet (c : Connection) (ack_num : Nat) (now : ℚ) :
    Connection × List SentPkt × Bool :=
  if c.state ≠ ConnectionState.transfer then (c, [], false)
  else
    let ha := c.handle_ack ack_num now
    if ha.2 = true then
      let r := send_data_packets ha.1 now
      if r.1.send_buffer.length ≤ r.1.ack_num then
        (r.1.update_state ConnectionState.complete, r.2, true)
      else (r.1, r.2, false)
    else
      let c1 := { ha.1 with
        duplicate_ack_count := ha.1.duplicate_ack_count + 1 }
      if c1.should_fast_retransmit = true then
        let r := trigger_fast_retransmit c1 now
        (r.1, r.2, false)
      else (c1, [], false)

/-- `handle_data_packet` for the download connection the source address
selects (`none` found ⟷ state ≠ Transfer): store the data, answer every
DATA with one ACK carrying the current cumulative `ack_num`, and flip to
`Complete` when `chunk_data` reaches `CHUNK_SIZE`. -/
def handle_data_packet (c : Connection) (seq_num : Nat) (data : List Nat)
    (now : ℚ) : Connection × List SentPkt × Bool :=
  if c.state ≠ ConnectionState.transfer then (c, [], false)
  else
    let ar := c.add_received_data seq_num data
    if ar.2 = true then
      let c1 := match ar.1.first_packet_time with
        | some t0 => ar.1.update_timeout_on_ack (now - t0)
        | none => { ar.1 with first_packet_time := some now }
      if c1.is_chunk_complete CHUNK_SIZE = true then
        (c1.update_state ConnectionState.complete, [SentPkt.ack c1.ack_num], true)
      else (c1, [SentPkt.ack c1.ack_num], false)
    else (ar.1, [SentPkt.ack ar.1.ack_num], false)

/-- `handle_download_timeout`: loss update and a reminder ACK for the
last in-order packet. -/
def handle_download_timeout (c : Connection) : Connection × List SentPkt :=
  let c1 := c.update_cwnd_on_loss
  let c2 := { c1 with packets_lost := c1.packets_lost + 1 }
  (c2, [SentPkt.ack c2.ack_num])

/-! ## Handshake manager (`src/handshake.py`).  Chunk hashes are the raw
20-byte strings; the hex-string keys of `has_chunks` are in bijection
with them, so the local store is modelled as the list of held raw
hashes. -/

inductive WhoHasReply where
  | denied
  | ihave (chunk_hashes : List (List Nat))
deriving DecidableEq

/-- `handle_who_has_request` on an already extracted hash list: collect
the held subset in request order, answer DENIED when the upload slots
are exhausted or nothing is held, and IHAVE otherwise. -/
def handle_who_has_request (upload_count max_conn : Nat)
    (store requested : List (List Nat)) : WhoHasReply :=
  let available := requested.filter (fun h => decide (h ∈ store))
  if max_conn ≤ upload_count then .denied
  else if available ≠ [] then .ihave available
  else .denied

/-- `handle_get_request`: reject (silently, returning `None`) a payload
that is not exactly 20 bytes, an unknown chunk, exhausted upload slots,
or a duplicate connection; otherwise accept the requested hash. -/
def handle_get_request (upload_count max_conn : Nat)
    (store : List (List Nat)) (conn_exists : Bool) (payload : List Nat) :
    Option (List Nat) :=
  if payload.length ≠ 20 then none
  else if ¬ payload ∈ store then none
  else if max_conn ≤ upload_count then none
  else if conn_exists = true then none
  else some payload

/-! ## Derived runs used by the claims -/

/-- Congestion-control events as seen by a connection. -/
inductive CCEvent where
  | ackEv
  | lossEv
deriving DecidableEq

def applyCC (c : Connection) (e : CCEvent) : Connection :=
  match e with
  | CCEvent.ackEv => c.update_cwnd_on_ack
  | CCEvent.lossEv => c.update_cwnd_on_loss

def applyCCs (c : Connection) (evs : List CCEvent) : Connection :=
  evs.foldl applyCC c

/-- Feed a sequence of `(seq, data)` pairs to `add_received_data`. -/
def recvFold (custom_timeout : Option ℚ) (ops : List (Nat × List Nat)) :
    Connection :=
  ops.foldl (fun c op => (c.add_received_data op.1 op.2).1)
    (create_download_connection custom_timeout)

/-- Run `handle_data_packet` over a list of `(arrival time, seq, data)`
events; besides the final connection, count the ACK datagrams emitted
and the events that arrived while the connection was in `Transfer`. -/
def runRecv (c : Connection) : List (ℚ × Nat × List Nat) → Connection × Nat × Nat
  | [] => (c, 0, 0)
  | e :: rest =>
    let r := handle_data_packet c e.2.1 e.2.2 e.1
    let t := runRecv r.1 rest
    (t.1, r.2.1.length + t.2.1,
      (if c.state = ConnectionState.transfer then 1 else 0) + t.2.2)

/-- Concatenation of the payloads of packets `1..k` in sequence order. -/
def concatPayload (payload : Nat → List Nat) : Nat → List Nat
  | 0 => []
  | k + 1 => concatPayload payload k ++ payload (k + 1)

/-- The invariant of a receiving connection that has seen exactly the
sequence numbers in `seen` of a chunk of `N` packets with payload map
`payload`. -/
structure RInv (payload : Nat → List Nat) (N : Nat) (seen : List Nat)
    (c : Connection) : Prop where
  dir : c.direction = TransferDirection.download
  seen_bounds : ∀ s ∈ seen, 1 ≤ s ∧ s ≤ N
  mem_iff : ∀ k, (dictGet c.recv_buffer k).isSome = true ↔ k ∈ seen
  get_val : ∀ k ∈ seen, dictGet c.recv_buffer k = some (payload k)
  low_mem : ∀ j, 1 ≤ j → j ≤ c.ack_num → j ∈ seen
  next_not_mem : ¬ (c.ack_num + 1) ∈ seen
  chunk_eq : c.chunk_data = concatPayload payload c.ack_num

/-- `RInv` together with the state/completion coupling maintained by
`handle_data_packet`. -/
def StInv (payload : Nat → List Nat) (N : Nat) (seen : List Nat)
    (c : Connection) : Prop :=
  RInv payload N seen c ∧
    ((c.state = ConnectionState.transfer ∧ c.chunk_data.length < CHUNK_SIZE) ∨
     (c.state = ConnectionState.complete ∧ CHUNK_SIZE ≤ c.chunk_data.length))

/-- The 378-packet split of a full 524 288-byte chunk (377 payloads of
1388 bytes and a final payload of 1012 bytes). -/
def payloadCE (i : Nat) : List Nat :=
  if i = 378 then List.replicate 1012 0 else List.replicate 1388 0

/-- In-order arrival of the full chunk. -/
def inOrderCE : List (ℚ × Nat × List Nat) :=
  (List.range 378).map (fun i => ((0 : ℚ), i + 1, payloadCE (i + 1)))

/-- The full chunk in order followed by one duplicate DATA packet. -/
def dupTailCE : List (ℚ × Nat × List Nat) :=
  inOrderCE ++ [((0 : ℚ), 1, payloadCE 1)]

/-! ## Lemmas: packet codec -/

theorem fromB2_toB2 (n : Nat) (h : n < 65536) :
    fromB2 (n / 256 % 256) (n % 256) = n := by
  simp only [fromB2]
  omega

theorem fromB4_toB4 (n : Nat) (h : n < 4294967296) :
    fromB4 (n / 16777216 % 256) (n / 65536 % 256) (n / 256 % 256) (n % 256) = n := by
  simp only [fromB4]
  omega

theorem flatten_len20 (hs : List (List Nat)) (h : ∀ x ∈ hs, x.length = 20) :
    hs.flatten.length = 20 * hs.length := by
  induction hs with
  | nil => simp
  | cons a t ih =>
    simp only [List.flatten_cons, List.length_append, List.length_cons]
    rw [h a (by simp), ih (fun x hx => h x (by simp [hx]))]
    ring

theorem parse_mkHeader (t pl s a : Nat) (payload : List Nat)
    (hpl : pl < 65536) (hs : s < 4294967296) (ha : a < 4294967296)
    (hlen : pl = HEADER_LEN + payload.length) :
    parse_packet (mkHeader t pl s a ++ payload) =
      Except.ok ⟨t, HEADER_LEN, pl, s, a, payload⟩ := by
  simp only [mkHeader, toB2, toB4, List.cons_append, List.append_assoc,
    List.nil_append, parse_packet]
  rw [fromB2_toB2 pl hpl, fromB4_toB4 s hs, fromB4_toB4 a ha,
    if_neg (by omega)]
  rfl

/-- C6: for each of the six message types and every legal payload,
parsing the built datagram succeeds and returns the same type, header
length 12, total length, sequence number, ack number and payload. -/
theorem codec_roundtrip :
    (∀ hs : List (List Nat), hs ≠ [] → (∀ x ∈ hs, x.length = 20) →
      HEADER_LEN + 20 * hs.length ≤ BUF_SIZE →
      (build_who_has_packet hs).bind parse_packet =
        Except.ok ⟨0, HEADER_LEN, HEADER_LEN + 20 * hs.length, 0, 0, hs.flatten⟩) ∧
    (∀ hs : List (List Nat), hs ≠ [] → (∀ x ∈ hs, x.length = 20) →
      HEADER_LEN + 20 * hs.length ≤ BUF_SIZE →
      (build_i_have_packet hs).bind parse_packet =
        Except.ok ⟨1, HEADER_LEN, HEADER_LEN + 20 * hs.length, 0, 0, hs.flatten⟩) ∧
    (∀ ch : List Nat, ch.length = 20 →
      (build_get_packet ch).bind parse_packet =
        Except.ok ⟨2, HEADER_LEN, HEADER_LEN + 20, 0, 0, ch⟩) ∧
    (∀ (s : Nat) (d : List Nat), s < 4294967296 → d.length ≤ MAX_PAYLOAD_SIZE →
      (build_data_packet s d).bind parse_packet =
        Except.ok ⟨3, HEADER_LEN, HEADER_LEN + d.length, s, 0, d⟩) ∧
    (∀ a : Nat, a < 4294967296 →
      (build_ack_packet a).bind parse_packet =
        Except.ok ⟨4, HEADER_LEN, HEADER_LEN, 0, a, []⟩) ∧
    parse_packet build_denied_packet =
      Except.ok ⟨5, HEADER_LEN, HEADER_LEN, 0, 0, []⟩ := by
  refine ⟨?_, ?_, ?_, ?_, ?_, ?_⟩
  · intro hs hne h20 hbuf
    have hl := flatten_len20 hs h20
    have hbuf' : 12 + 20 * hs.length ≤ 1400 := by
      simpa [HEADER_LEN, BUF_SIZE] using hbuf
    simp only [build_who_has_packet, if_neg hne]
    rw [if_neg (by simp only [HEADER_LEN]; omega)]
    simp only [Except.bind]
    rw [hl]
    exact parse_mkHeader 0 (HEADER_LEN + 20 * hs.length) 0 0 hs.flatten
      (by simp only [HEADER_LEN]; omega) (by omega) (by omega) (by rw [hl])
  · intro hs hne h20 hbuf
    have hl := flatten_len20 hs h20
    have hbuf' : 12 + 20 * hs.length ≤ 1400 := by
      simpa [HEADER_LEN, BUF_SIZE] using hbuf
    simp only [build_i_have_packet, if_neg hne]
    rw [if_neg (by simp only [HEADER_LEN]; omega)]
    simp only [Except.bind]
    rw [hl]
    exact parse_mkHeader 1 (HEADER_LEN + 20 * hs.length) 0 0 hs.flatten
      (by simp only [HEADER_LEN]; omega) (by omega) (by omega) (by rw [hl])
  · intro ch h20
    simp only [build_get_packet]
    rw [if_neg (by simp [h20])]
    simp only [Except.bind]
    rw [show HEADER_LEN + 20 = HEADER_LEN + ch.length by rw [h20]]
    exact parse_mkHeader 2 (HEADER_LEN + ch.length) 0 0 ch
      (by simp only [HEADER_LEN]; omega) (by omega) (by omega) rfl
  · intro s d hs hd
    have hd' : d.length ≤ 1388 := by
      simpa [MAX_PAYLOAD_SIZE, BUF_SIZE] using hd
    simp only [build_data_packet]
    rw [if_neg (by simp only [MAX_PAYLOAD_SIZE, BUF_SIZE, HEADER_LEN]; omega),
      if_neg (by omega)]
    simp only [Except.bind]
    exact parse_mkHeader 3 (HEADER_LEN + d.length) s 0 d
      (by simp only [HEADER_LEN]; omega) hs (by omega) rfl
  · intro a ha
    simp only [build_ack_packet]
    rw [if_neg (by omega)]
    simp only [Except.bind]
    have := parse_mkHeader 4 HEADER_LEN 0 a [] (by decide) (by omega) ha
      (by simp)
    simpa using this
  · have := parse_mkHeader 5 HEADER_LEN 0 0 [] (by decide) (by omega) (by omega)
      (by simp)
    simpa [build_denied_packet] using this

/-- Witness for `codec_roundtrip`: concrete instances of every
hypothesis, with a DATA round trip evaluated in full. -/
theorem codec_roundtrip_witness :
    ((7 : Nat) < 4294967296 ∧ ([1, 2, 3] : List Nat).length ≤ MAX_PAYLOAD_SIZE) ∧
    (build_data_packet 7 [1, 2, 3]).bind parse_packet =
      Except.ok ⟨3, HEADER_LEN, HEADER_LEN + 3, 7, 0, [1, 2, 3]⟩ :=
  ⟨by decide, codec_roundtrip.2.2.2.1 7 [1, 2, 3] (by decide) (by decide)⟩

/-- C7: encoding a DATA packet fails exactly when its payload exceeds
1388 bytes; decoding reports an error on a datagram shorter than the
12-byte header or whose declared `pkt_len` disagrees with its actual
length; hash extraction reports an error on a WHOHAS/IHAVE payload that
is not a multiple of 20; and a GET whose payload is not exactly 20
bytes is rejected. -/
theorem codec_errors :
    (∀ (s : Nat) (d : List Nat), s < 4294967296 →
      (build_data_packet s d = Except.error PktError.oversizeData ↔
        MAX_PAYLOAD_SIZE < d.length)) ∧
    (∀ p : List Nat, p.length < HEADER_LEN →
      parse_packet p = Except.error PktError.tooShort) ∧
    (∀ (t hl l1 l0 s3 s2 s1 s0 a3 a2 a1 a0 : Nat) (rest : List Nat),
      HEADER_LEN + rest.length ≠ fromB2 l1 l0 →
      parse_packet (t :: hl :: l1 :: l0 :: s3 :: s2 :: s1 :: s0 ::
        a3 :: a2 :: a1 :: a0 :: rest) = Except.error PktError.lengthMismatch) ∧
    (∀ payload : List Nat,
      (extract_chunk_hashes payload = Except.error PktError.badHashPayload ↔
        payload.length % 20 ≠ 0)) ∧
    (∀ (uc mc : Nat) (store : List (List Nat)) (ex : Bool) (payload : List Nat),
      payload.length ≠ 20 → handle_get_request uc mc store ex payload = none) := by
  refine ⟨?_, ?_, ?_, ?_, ?_⟩
  · intro s d hs
    by_cases h : MAX_PAYLOAD_SIZE < d.length
    · simp [build_data_packet, h]
    · simp [build_data_packet, h, if_neg (show ¬ 4294967296 ≤ s by omega)]
  · intro p hp
    match p with
    | [] => rfl
    | [_] => rfl
    | [_, _] => rfl
    | [_, _, _] => rfl
    | [_, _, _, _] => rfl
    | [_, _, _, _, _] => rfl
    | [_, _, _, _, _, _] => rfl
    | [_, _, _, _, _, _, _] => rfl
    | [_, _, _, _, _, _, _, _] => rfl
    | [_, _, _, _, _, _, _, _, _] => rfl
    | [_, _, _, _, _, _, _, _, _, _] => rfl
    | [_, _, _, _, _, _, _, _, _, _, _] => rfl
    | _ :: _ :: _ :: _ :: _ :: _ :: _ :: _ :: _ :: _ :: _ :: _ :: _ =>
      simp only [List.length_cons, HEADER_LEN] at hp
      omega
  · intro t hl l1 l0 s3 s2 s1 s0 a3 a2 a1 a0 rest h
    simp only [parse_packet]
    rw [if_pos h]
  · intro payload
    by_cases h : payload.length % 20 = 0
    · simp [extract_chunk_hashes, h]
    · simp [extract_chunk_hashes, h]
  · intro uc mc store ex payload h
    simp [handle_get_request, h]

/-- Witness for `codec_errors`: concrete instances of each rejection. -/
theorem codec_errors_witness :
    (MAX_PAYLOAD_SIZE < (List.replicate 1389 0).length ∧
      build_data_packet 0 (List.replicate 1389 0) =
        Except.error PktError.oversizeData) ∧
    parse_packet [3, 12, 0] = Except.error PktError.tooShort ∧
    parse_packet [3, 12, 0, 99, 0, 0, 0, 1, 0, 0, 0, 0] =
      Except.error PktError.lengthMismatch ∧
    extract_chunk_hashes [1, 2, 3] = Except.error PktError.badHashPayload ∧
    handle_get_request 0 1 [] false [1, 2, 3] = none := by
  refine ⟨⟨by decide, ?_⟩, ?_, ?_, ?_, ?_⟩
  · exact ((codec_errors.1 0 (List.replicate 1389 0) (by decide)).mpr (by decide))
  · exact codec_errors.2.1 [3, 12, 0] (by decide)
  · exact codec_errors.2.2.1 3 12 0 99 0 0 0 1 0 0 0 0 [] (by decide)
  · exact (codec_errors.2.2.2.1 [1, 2, 3]).mpr (by decide)
  · exact codec_errors.2.2.2.2 0 1 [] false [1, 2, 3] (by decide)

/-! ## Lemmas: congestion control -/

theorem pyInt_eq_floor (q : ℚ) (h : 0 ≤ q) : pyInt q = ⌊q⌋ := by
  obtain ⟨m, hm⟩ := Int.eq_ofNat_of_zero_le (Rat.num_nonneg.mpr h)
  rw [Rat.floor_def, pyInt, hm]
  rfl

theorem cwnd_ge_one_ack (c : Connection) (h : 1 ≤ c.cwnd) :
    1 ≤ c.update_cwnd_on_ack.cwnd := by
  unfold Connection.update_cwnd_on_ack
  split
  · simp only
    linarith
  · simp only
    have h0 : 0 < c.cwnd := by linarith
    have h1 : 0 < 1 / c.cwnd := by positivity
    linarith

theorem applyCCs_ge_one (evs : List CCEvent) :
    ∀ c : Connection, 1 ≤ c.cwnd → 1 ≤ (applyCCs c evs).cwnd := by
  induction evs with
  | nil => intro c h; simpa [applyCCs] using h
  | cons e rest ih =>
    intro c h
    have hstep : 1 ≤ (applyCC c e).cwnd := by
      cases e with
      | ackEv => exact cwnd_ge_one_ack c h
      | lossEv => simp [applyCC, Connection.update_cwnd_on_loss]
    simpa [applyCCs, List.foldl_cons] using ih (applyCC c e) hstep

/-- C8: a new ACK grows `cwnd` by exactly 1 in slow start and by exactly
`1/cwnd` in congestion avoidance; a loss sets `ssthresh` to
`max(⌊cwnd/2⌋, 2)` and `cwnd` to 1; under any interleaving of the two
updates `cwnd` never falls below 1; and the send window is always
`max(1, ⌊cwnd⌋)`. -/
theorem congestion_laws (c : Connection) (h : 1 ≤ c.cwnd) :
    (c.cwnd < (c.ssthresh : ℚ) → c.update_cwnd_on_ack.cwnd = c.cwnd + 1) ∧
    ((c.ssthresh : ℚ) ≤ c.cwnd →
      c.update_cwnd_on_ack.cwnd = c.cwnd + 1 / c.cwnd) ∧
    c.update_cwnd_on_loss.ssthresh = max ⌊c.cwnd / 2⌋ 2 ∧
    c.update_cwnd_on_loss.cwnd = 1 ∧
    (∀ evs : List CCEvent, 1 ≤ (applyCCs c evs).cwnd) ∧
    c.get_send_window = max 1 ⌊c.cwnd⌋ := by
  refine ⟨?_, ?_, ?_, ?_, fun evs => applyCCs_ge_one evs c h, ?_⟩
  · intro hlt
    simp [Connection.update_cwnd_on_ack, if_pos hlt]
  · intro hge
    simp [Connection.update_cwnd_on_ack, if_neg (not_lt.mpr hge)]
  · simp only [Connection.update_cwnd_on_loss]
    rw [pyInt_eq_floor _ (by linarith)]
  · simp [Connection.update_cwnd_on_loss]
  · simp only [Connection.get_send_window]
    rw [pyInt_eq_floor _ (by linarith)]

/-- Witness for `congestion_laws` at a freshly initialised connection. -/
theorem congestion_laws_witness :
    (1 : ℚ) ≤ (Connection.init TransferDirection.upload).cwnd ∧
    (Connection.init TransferDirection.upload).get_send_window =
      max 1 ⌊(Connection.init TransferDirection.upload).cwnd⌋ :=
  ⟨by decide, (congestion_laws _ (by decide)).2.2.2.2.2⟩

/-- C9: a WHOHAS received with all upload slots busy is answered DENIED
regardless of availability; otherwise DENIED exactly when no requested
hash is held, and else a single IHAVE whose payload is exactly the held
subset of the requested hashes. -/
theorem whohas_admission (uc mc : Nat) (store requested : List (List Nat)) :
    (mc ≤ uc → handle_who_has_request uc mc store requested = WhoHasReply.denied) ∧
    (uc < mc → requested.filter (fun h => decide (h ∈ store)) = [] →
      handle_who_has_request uc mc store requested = WhoHasReply.denied) ∧
    (uc < mc → requested.filter (fun h => decide (h ∈ store)) ≠ [] →
      handle_who_has_request uc mc store requested =
        WhoHasReply.ihave (requested.filter (fun h => decide (h ∈ store))) ∧
      ∀ h : List Nat, h ∈ requested.filter (fun h => decide (h ∈ store)) ↔
        h ∈ requested ∧ h ∈ store) := by
  refine ⟨?_, ?_, ?_⟩
  · intro h
    simp only [handle_who_has_request]
    rw [if_pos h]
  · intro h1 h2
    simp only [handle_who_has_request]
    rw [if_neg (not_le.mpr h1), if_neg (by simpa using h2)]
  · intro h1 h2
    refine ⟨?_, ?_⟩
    · simp only [handle_who_has_request]
      rw [if_neg (not_le.mpr h1), if_pos (by simpa using h2)]
    · intro h
      simp [List.mem_filter]

/-- Witness for `whohas_admission`: one free slot, one held hash. -/
theorem whohas_admission_witness :
    (0 : Nat) < 1 ∧
    ([[1], [2]] : List (List Nat)).filter
      (fun h => decide (h ∈ ([[1]] : List (List Nat)))) ≠ [] ∧
    handle_who_has_request 0 1 [[1]] [[1], [2]] = WhoHasReply.ihave [[1]] := by
  refine ⟨by decide, by decide, ?_⟩
  exact ((whohas_admission 0 1 [[1]] [[1], [2]]).2.2 (by decide) (by decide)).1.trans
    (by decide)

/-- C10: a freshly created download connection has `last_send_time = 0`,
so any tick whose time exceeds `timeout_interval` already sees
`should_retransmit()` true, and the download-timeout handler then
applies the congestion loss update and emits a spurious ACK carrying
`ack_num = 0`. -/
theorem fresh_download_timeout (ct : Option ℚ) (t : ℚ)
    (h : (create_download_connection ct).timeout_interval < t) :
    (create_download_connection ct).last_send_time = 0 ∧
    (create_download_connection ct).ack_num = 0 ∧
    (create_download_connection ct).is_active = true ∧
    (create_download_connection ct).should_retransmit t = true ∧
    (handle_download_timeout (create_download_connection ct)).1.cwnd = 1 ∧
    (handle_download_timeout (create_download_connection ct)).1.ssthresh =
      max ⌊(create_download_connection ct).cwnd / 2⌋ 2 ∧
    (handle_download_timeout (create_download_connection ct)).2 =
      [SentPkt.ack 0] := by
  have hl : (create_download_connection ct).last_send_time = 0 := by
    cases ct <;> rfl
  have ha : (create_download_connection ct).ack_num = 0 := by
    cases ct <;> rfl
  have hcw : (create_download_connection ct).cwnd = 1 := by
    cases ct <;> rfl
  have hst : (create_download_connection ct).state = ConnectionState.transfer := by
    cases ct <;> rfl
  refine ⟨hl, ha, ?_, ?_, ?_, ?_, ?_⟩
  · simp [Connection.is_active, hst]
  · simp only [Connection.should_retransmit, hl, sub_zero, decide_eq_true_eq]
    exact h
  · simp [handle_download_timeout, Connection.update_cwnd_on_loss]
  · simp only [handle_download_timeout, Connection.update_cwnd_on_loss]
    rw [pyInt_eq_floor _ (by rw [hcw]; norm_num)]
  · simp [handle_download_timeout, Connection.update_cwnd_on_loss, ha]

/-- Witness for `fresh_download_timeout` with the default 3-second
timeout at tick time 4. -/
theorem fresh_download_timeout_witness :
    (create_download_connection none).timeout_interval < 4 ∧
    (create_download_connection none).should_retransmit 4 = true ∧
    (handle_download_timeout (create_download_connection none)).2 =
      [SentPkt.ack 0] :=
  ⟨by with_unfolding_all decide,
    (fresh_download_timeout none 4 (by with_unfolding_all decide)).2.2.2.1,
    (fresh_download_timeout none 4 (by with_unfolding_all decide)).2.2.2.2.2.2⟩

/-- C1 (evaluating the code at the failing input): an upload of a
1389-byte chunk is split into N = 2 packets, yet after the single ACK
with `ack_num = 1` the connection's state is `Complete` although
`ack_num = 1 < 2 = N` — the completion test compares `ack_num` against
`len(send_buffer)` after `handle_ack` has pruned the acknowledged
packets. -/
theorem upload_complete_bug :
    (create_upload_connection none (List.replicate 1389 0)).send_buffer.length = 2 ∧
    (handle_ack_packet
      (start_data_upload (create_upload_connection none (List.replicate 1389 0)) 0).1
      1 0).1.state = ConnectionState.complete ∧
    (handle_ack_packet
      (start_data_upload (create_upload_connection none (List.replicate 1389 0)) 0).1
      1 0).1.ack_num = 1 := by
  refine ⟨?_, ?_, ?_⟩ <;> with_unfolding_all decide

/-- C2 (evaluating the code at the failing input): for the same 2-packet
upload, the upload start emits exactly packet 1 (as the claim demands,
`min(N, ack+W) = 1`), but the new ACK `ack_num = 1` — after which the
claim demands emission up to `min(N, ack_num + W) = min(2, 1 + 2) = 2` —
emits nothing and leaves `seq_num = 1`, because the loop is capped by
`len(send_buffer) = 1` after pruning. -/
theorem sender_window_bug :
    (let r1 := start_data_upload
        (create_upload_connection none (List.replicate 1389 0)) 0
     let r2 := handle_ack_packet r1.1 1 0
     r1.2.1.length = 1 ∧ sentSeqs r1.2.1 = [1] ∧
       r1.1.seq_num = 1 ∧
       r2.2.1 = [] ∧
       r2.1.seq_num = 1 ∧
       r2.1.ack_num = 1 ∧
       r2.1.cwnd = 2) := by
  with_unfolding_all decide

/-- C4 (evaluating the code at the failing input): an upload connection
that has sent packet 1 of a one-packet chunk receives only TWO duplicate
ACKs for `ack_num = 0`; because each duplicate is counted twice (once in
`Connection.handle_ack` and once more in `handle_ack_packet`), the
counter reaches 4 ≥ 3 and the second duplicate already fires the fast
retransmit of packet `ack_num + 1 = 1` together with the loss update —
the claim's "fewer than three duplicates trigger no retransmission" and
"each incoming duplicate ACK is counted exactly once" both fail. -/
theorem fast_retransmit_double_count_bug :
    (let r1 := start_data_upload (create_upload_connection none [7]) 0
     let r2 := handle_ack_packet r1.1 0 0
     let r3 := handle_ack_packet r2.1 0 0
     r1.2.1 = [SentPkt.data 1 [7]] ∧
       r2.2.1 = [] ∧ r2.1.retransmission_count = 0 ∧
       r2.1.duplicate_ack_count = 2 ∧
       r3.2.1 = [SentPkt.data 1 [7]] ∧
       r3.1.retransmission_count = 1 ∧ r3.1.cwnd = 1 ∧
       r3.1.ssthresh = 2 ∧ r3.1.duplicate_ack_count = 0) := by
  with_unfolding_all decide

/-! ## Lemmas: receive buffer and drain loop -/

theorem dictGet_cons (p : Nat × List Nat) (t : List (Nat × List Nat)) (k : Nat) :
    dictGet (p :: t) k = if p.1 = k then some p.2 else dictGet t k := by
  simp only [dictGet, List.find?_cons]
  by_cases h : p.1 = k
  · simp [h]
  · have hb : (p.1 == k) = false := beq_eq_false_iff_ne.mpr h
    simp [hb, h]

theorem dictGet_append (B : List (Nat × List Nat)) (s : Nat) (v : List Nat)
    (k : Nat) :
    dictGet (B ++ [(s, v)]) k =
      match dictGet B k with
      | some w => some w
      | none => if k = s then some v else none := by
  induction B with
  | nil =>
    simp only [List.nil_append, dictGet_cons, dictGet, List.find?_nil,
      Option.map_none']
    by_cases h : s = k
    · simp [h]
    · rw [if_neg (fun hk => h hk.symm)]
      simp [List.find?_cons, beq_eq_false_iff_ne.mpr h]
  | cons p t ih =>
    simp only [List.cons_append, dictGet_cons, ih]
    by_cases h : p.1 = k
    · simp [h]
    · simp [h]

theorem dictGet_le_maxKey (B : List (Nat × List Nat)) (k : Nat) (w : List Nat)
    (h : dictGet B k = some w) : k ≤ dictMaxKey B := by
  induction B with
  | nil => simp [dictGet] at h
  | cons p t ih =>
    rw [dictGet_cons] at h
    simp only [dictMaxKey, List.foldr_cons]
    by_cases hp : p.1 = k
    · omega
    · rw [if_neg hp] at h
      have := ih h
      simp only [dictMaxKey] at this
      omega

theorem drainLoop_ge (f : Nat) (B : List (Nat × List Nat)) :
    ∀ a ch, a ≤ (drainLoop f B a ch).1 := by
  induction f with
  | zero => intro a ch; simp [drainLoop]
  | succ f ih =>
    intro a ch
    simp only [drainLoop]
    cases hg : dictGet B (a + 1) with
    | some d => exact le_trans (by omega) (ih (a + 1) (ch ++ d))
    | none => simp

theorem drainLoop_none (f : Nat) (B : List (Nat × List Nat)) :
    ∀ a ch, dictMaxKey B + 1 ≤ a + f →
      dictGet B ((drainLoop f B a ch).1 + 1) = none := by
  induction f with
  | zero =>
    intro a ch h
    simp only [drainLoop]
    cases hg : dictGet B (a + 1) with
    | none => rfl
    | some w => exact absurd (dictGet_le_maxKey B _ _ hg) (by omega)

  | succ f ih =>
    intro a ch h
    simp only [drainLoop]
    cases hg : dictGet B (a + 1) with
    | some d => exact ih (a + 1) (ch ++ d) (by omega)
    | none => simpa using hg

theorem drainLoop_vals (payload : Nat → List Nat) (f : Nat)
    (B : List (Nat × List Nat))
    (hv : ∀ k w, dictGet B k = some w → w = payload k) :
    ∀ a ch, ch = concatPayload payload a →
      (drainLoop f B a ch).2 = concatPayload payload (drainLoop f B a ch).1 := by
  induction f with
  | zero => intro a ch hch; simpa [drainLoop] using hch
  | succ f ih =>
    intro a ch hch
    simp only [drainLoop]
    cases hg : dictGet B (a + 1) with
    | some d =>
      exact ih (a + 1) (ch ++ d)
        (by rw [hv _ _ hg, hch]; rfl)
    | none => simpa using hch

theorem drainLoop_low (f : Nat) (B : List (Nat × List Nat)) :
    ∀ a ch, (∀ j, 1 ≤ j → j ≤ a → (dictGet B j).isSome = true) →
      ∀ j, 1 ≤ j → j ≤ (drainLoop f B a ch).1 →
        (dictGet B j).isSome = true := by
  induction f with
  | zero =>
    intro a ch hpre
    simpa [drainLoop] using hpre
  | succ f ih =>
    intro a ch hpre
    simp only [drainLoop]
    cases hg : dictGet B (a + 1) with
    | some d =>
      refine ih (a + 1) (ch ++ d) ?_
      intro j h1 hj
      rcases Nat.lt_or_ge j (a + 1) with hlt | hge
      · exact hpre j h1 (by omega)
      · have : j = a + 1 := by omega
        rw [this, hg]
        rfl
    | none => simpa using hpre

theorem dictGet_insert_fresh (B : List (Nat × List Nat)) (s : Nat)
    (v : List Nat) (hs : dictGet B s = none) (k : Nat) :
    dictGet (B ++ [(s, v)]) k = if k = s then some v else dictGet B k := by
  rw [dictGet_append]
  by_cases hk : k = s
  · subst hk
    rw [hs]
  · rw [if_neg hk]
    cases hck : dictGet B k
    · simp [hk]
    · rw [if_neg hk]

theorem add_dup (c : Connection) (s : Nat) (d : List Nat)
    (h : (dictGet c.recv_buffer s).isSome = true) :
    c.add_received_data s d = (c, false) := by
  unfold Connection.add_received_data
  by_cases hdir : c.direction ≠ TransferDirection.download
  · rw [if_pos hdir]
  · rw [if_neg hdir, if_pos h]

theorem add_new_components (c : Connection) (s : Nat) (d : List Nat)
    (hdir : c.direction = TransferDirection.download)
    (hnone : dictGet c.recv_buffer s = none) :
    c.add_received_data s d =
      ({ c with
          recv_buffer := c.recv_buffer ++ [(s, d)],
          bytes_transferred := c.bytes_transferred + d.length,
          ack_num :=
            (drainRecv (c.recv_buffer ++ [(s, d)]) c.ack_num c.chunk_data).1,
          chunk_data :=
            (drainRecv (c.recv_buffer ++ [(s, d)]) c.ack_num c.chunk_data).2 },
        true) := by
  simp only [Connection.add_received_data]
  rw [if_neg (by simp [hdir]), if_neg (by simp [hnone])]

theorem drainRecv_none (B : List (Nat × List Nat)) (a : Nat) (ch : List Nat) :
    dictGet B ((drainRecv B a ch).1 + 1) = none :=
  drainLoop_none _ B a ch (by omega)

theorem add_low_mem (c : Connection) (s : Nat) (d : List Nat)
    (hpre : ∀ j, 1 ≤ j → j ≤ c.ack_num →
      (dictGet c.recv_buffer j).isSome = true) :
    ∀ j, 1 ≤ j → j ≤ (c.add_received_data s d).1.ack_num →
      (dictGet (c.add_received_data s d).1.recv_buffer j).isSome = true := by
  by_cases hdir : c.direction = TransferDirection.download
  · by_cases hdup : (dictGet c.recv_buffer s).isSome = true
    · rw [add_dup c s d hdup]
      exact hpre
    · have hnone : dictGet c.recv_buffer s = none := by
        cases hg : dictGet c.recv_buffer s with
        | none => rfl
        | some w => rw [hg] at hdup; exact absurd rfl hdup
      rw [add_new_components c s d hdir hnone]
      intro j h1 h2
      refine drainLoop_low _ _ c.ack_num c.chunk_data ?_ j h1 h2
      intro j2 hj1 hj2
      rw [dictGet_insert_fresh c.recv_buffer s d hnone]
      by_cases hk : j2 = s
      · simp [hk]
      · rw [if_neg hk]
        exact hpre j2 hj1 hj2
  · simp only [Connection.add_received_data, if_pos hdir]
    exact hpre

/-- C3 is false as stated: drained keys stay in `recv_buffer`, so after
receiving packet 1 the key 1 is present while `ack_num = 1` — the key is
not strictly greater than `ack_num`. -/
theorem recv_buffer_keys_cex :
    ¬ (∀ k : Nat,
      (dictGet ((Connection.add_received_data
          (create_download_connection none) 1 [5]).1.recv_buffer) k).isSome =
        true →
      (Connection.add_received_data
          (create_download_connection none) 1 [5]).1.ack_num < k) := by
  intro h
  have h1 := h 1 (by with_unfolding_all decide)
  have : (Connection.add_received_data
      (create_download_connection none) 1 [5]).1.ack_num = 1 := by
    with_unfolding_all decide
  omega

/-- C3 (amended): `add_received_data` never removes drained keys, so the
invariant that holds is containment the other way around — after any
sequence of `add_received_data` operations on a download connection,
every sequence number in `[1, ack_num]` is a key of `recv_buffer`
(delivered packets stay buffered for duplicate detection); keys need not
exceed `ack_num`. -/
theorem recv_buffer_keys_amended (ct : Option ℚ) (ops : List (Nat × List Nat))
    (k : Nat) (h1 : 1 ≤ k) (h2 : k ≤ (recvFold ct ops).ack_num) :
    (dictGet (recvFold ct ops).recv_buffer k).isSome = true := by
  suffices hgen : ∀ (l : List (Nat × List Nat)) (c : Connection),
      (∀ j, 1 ≤ j → j ≤ c.ack_num → (dictGet c.recv_buffer j).isSome = true) →
      (∀ j, 1 ≤ j → j ≤ (l.foldl (fun c op => (c.add_received_data op.1 op.2).1) c).ack_num →
        (dictGet (l.foldl (fun c op => (c.add_received_data op.1 op.2).1) c).recv_buffer j).isSome = true) by
    refine hgen ops (create_download_connection ct) ?_ k h1 h2
    intro j hj1 hj2
    have : (create_download_connection ct).ack_num = 0 := by cases ct <;> rfl
    omega
  intro l
  induction l with
  | nil => intro c hc; simpa using hc
  | cons op rest ih =>
    intro c hc
    simpa using ih ((c.add_received_data op.1 op.2).1) (add_low_mem c op.1 op.2 hc)

/-- Witness for `recv_buffer_keys_amended`: after in-order receipt of
packet 1 the key 1 is at or below `ack_num = 1` and still present. -/
theorem recv_buffer_keys_amended_witness :
    ((1 : Nat) ≤ 1 ∧ 1 ≤ (recvFold none [(1, [5])]).ack_num) ∧
    (dictGet (recvFold none [(1, [5])]).recv_buffer 1).isSome = true :=
  ⟨⟨le_refl 1, by with_unfolding_all decide⟩,
    recv_buffer_keys_amended none [(1, [5])] 1 (le_refl 1)
      (by with_unfolding_all decide)⟩

theorem RInv_fields (payload : Nat → List Nat) (N : Nat) (seen : List Nat)
    (c c2 : Connection) (h : RInv payload N seen c)
    (hdir : c2.direction = c.direction) (hbuf : c2.recv_buffer = c.recv_buffer)
    (hack : c2.ack_num = c.ack_num) (hch : c2.chunk_data = c.chunk_data) :
    RInv payload N seen c2 := by
  refine ⟨?_, h.seen_bounds, ?_, ?_, ?_, ?_, ?_⟩
  · rw [hdir]; exact h.dir
  · rw [hbuf]; exact h.mem_iff
  · rw [hbuf]; exact h.get_val
  · rw [hack]; exact h.low_mem
  · rw [hack]; exact h.next_not_mem
  · rw [hch, hack]; exact h.chunk_eq

theorem add_new_inv (payload : Nat → List Nat) (N : Nat) (seen : List Nat)
    (c : Connection) (inv : RInv payload N seen c) (s : Nat)
    (h1 : 1 ≤ s) (h2 : s ≤ N) (hnot : ¬ s ∈ seen) :
    RInv payload N (s :: seen)
      { c with
          recv_buffer := c.recv_buffer ++ [(s, payload s)],
          bytes_transferred := c.bytes_transferred + (payload s).length,
          ack_num := (drainRecv (c.recv_buffer ++ [(s, payload s)])
            c.ack_num c.chunk_data).1,
          chunk_data := (drainRecv (c.recv_buffer ++ [(s, payload s)])
            c.ack_num c.chunk_data).2 } := by
  have hnone : dictGet c.recv_buffer s = none := by
    cases hg : dictGet c.recv_buffer s with
    | none => rfl
    | some w => exact absurd ((inv.mem_iff s).mp (by rw [hg]; rfl)) hnot
  have hget := dictGet_insert_fresh c.recv_buffer s (payload s) hnone
  have hmem : ∀ k, (dictGet (c.recv_buffer ++ [(s, payload s)]) k).isSome = true ↔
      k ∈ s :: seen := by
    intro k
    rw [hget k]
    by_cases hk : k = s
    · simp [hk]
    · rw [if_neg hk]
      simp [List.mem_cons, hk, inv.mem_iff k]
  have hvals : ∀ k w, dictGet (c.recv_buffer ++ [(s, payload s)]) k = some w →
      w = payload k := by
    intro k w hw
    rw [hget k] at hw
    by_cases hk : k = s
    · subst hk
      rw [if_pos rfl] at hw
      exact (Option.some.inj hw).symm
    · rw [if_neg hk] at hw
      have hkseen : k ∈ seen := (inv.mem_iff k).mp (by rw [hw]; rfl)
      rw [inv.get_val k hkseen] at hw
      exact (Option.some.inj hw).symm
  have hlow : ∀ j, 1 ≤ j → j ≤ c.ack_num →
      (dictGet (c.recv_buffer ++ [(s, payload s)]) j).isSome = true := by
    intro j hj1 hj2
    exact (hmem j).mpr (List.mem_cons_of_mem _ (inv.low_mem j hj1 hj2))
  have hvals2 := drainLoop_vals payload
    (dictMaxKey (c.recv_buffer ++ [(s, payload s)]) + 1 - c.ack_num)
    (c.recv_buffer ++ [(s, payload s)]) hvals c.ack_num c.chunk_data
    inv.chunk_eq
  have hlow2 := drainLoop_low
    (dictMaxKey (c.recv_buffer ++ [(s, payload s)]) + 1 - c.ack_num)
    (c.recv_buffer ++ [(s, payload s)]) c.ack_num c.chunk_data hlow
  have hnone2 := drainRecv_none (c.recv_buffer ++ [(s, payload s)])
    c.ack_num c.chunk_data
  refine ⟨inv.dir, ?_, hmem, ?_, ?_, ?_, hvals2⟩
  · intro x hx
    rcases List.mem_cons.mp hx with rfl | hx2
    · exact ⟨h1, h2⟩
    · exact inv.seen_bounds x hx2
  · intro k hk
    rcases List.mem_cons.mp hk with rfl | hk2
    · rw [hget k, if_pos rfl]
    · have hks : k ≠ s := fun he => hnot (by rwa [he] at hk2)
      rw [hget k, if_neg hks]
      exact inv.get_val k hk2
  · intro j hj1 hj2
    exact (hmem j).mp (hlow2 j hj1 hj2)
  · intro hc
    have hsome := (hmem _).mpr hc
    rw [hnone2] at hsome
    simp at hsome

theorem hdp_not_transfer (c : Connection) (s : Nat) (d : List Nat) (t : ℚ)
    (hst : c.state ≠ ConnectionState.transfer) :
    handle_data_packet c s d t = (c, [], false) := by
  unfold handle_data_packet
  rw [if_pos hst]

theorem hdp_dup (c : Connection) (s : Nat) (d : List Nat) (t : ℚ)
    (hst : c.state = ConnectionState.transfer)
    (hdup : (dictGet c.recv_buffer s).isSome = true) :
    handle_data_packet c s d t = (c, [SentPkt.ack c.ack_num], false) := by
  unfold handle_data_packet
  rw [if_neg (by simp [hst]), add_dup c s d hdup]
  rfl

theorem hdp_new_eval (c : Connection) (s : Nat) (d : List Nat) (t : ℚ)
    (hst : c.state = ConnectionState.transfer)
    (hdir : c.direction = TransferDirection.download)
    (hnone : dictGet c.recv_buffer s = none) :
    ∃ c2 : Connection,
      handle_data_packet c s d t =
        (if c2.is_chunk_complete CHUNK_SIZE = true
         then (c2.update_state ConnectionState.complete,
            [SentPkt.ack c2.ack_num], true)
         else (c2, [SentPkt.ack c2.ack_num], false)) ∧
      c2.direction = c.direction ∧ c2.state = c.state ∧
      c2.recv_buffer = c.recv_buffer ++ [(s, d)] ∧
      c2.ack_num =
        (drainRecv (c.recv_buffer ++ [(s, d)]) c.ack_num c.chunk_data).1 ∧
      c2.chunk_data =
        (drainRecv (c.recv_buffer ++ [(s, d)]) c.ack_num c.chunk_data).2 := by
  unfold handle_data_packet
  rw [if_neg (by simp [hst]), add_new_components c s d hdir hnone]
  cases hfp : c.first_packet_time with
  | none =>
    refine ⟨{ c with
        recv_buffer := c.recv_buffer ++ [(s, d)],
        bytes_transferred := c.bytes_transferred + d.length,
        ack_num := (drainRecv (c.recv_buffer ++ [(s, d)]) c.ack_num c.chunk_data).1,
        chunk_data := (drainRecv (c.recv_buffer ++ [(s, d)]) c.ack_num c.chunk_data).2,
        first_packet_time := some t }, ?_, rfl, rfl, rfl, rfl, rfl⟩
    simp only [hfp]
    rfl
  | some t0 =>
    refine ⟨Connection.update_timeout_on_ack { c with
        recv_buffer := c.recv_buffer ++ [(s, d)],
        bytes_transferred := c.bytes_transferred + d.length,
        ack_num := (drainRecv (c.recv_buffer ++ [(s, d)]) c.ack_num c.chunk_data).1,
        chunk_data := (drainRecv (c.recv_buffer ++ [(s, d)]) c.ack_num c.chunk_data).2 }
      (t - t0), ?_, rfl, rfl, rfl, rfl, rfl⟩
    simp only [hfp]
    rfl

theorem hdp_step (payload : Nat → List Nat) (N : Nat) (seen : List Nat)
    (c : Connection) (hInv : StInv payload N seen c) (s : Nat) (t : ℚ)
    (h1 : 1 ≤ s) (h2 : s ≤ N) :
    ∃ seen2,
      StInv payload N seen2 (handle_data_packet c s (payload s) t).1 ∧
      (∀ x ∈ seen, x ∈ seen2) ∧
      (c.state = ConnectionState.transfer → s ∈ seen2) ∧
      (handle_data_packet c s (payload s) t).2.1.length =
        (if c.state = ConnectionState.transfer then 1 else 0) ∧
      (c.state ≠ ConnectionState.transfer →
        (handle_data_packet c s (payload s) t).1 = c) := by
  obtain ⟨inv, hstate⟩ := hInv
  by_cases hst : c.state = ConnectionState.transfer
  · by_cases hdup : (dictGet c.recv_buffer s).isSome = true
    · rw [hdp_dup c s (payload s) t hst hdup]
      exact ⟨seen, ⟨inv, hstate⟩, fun x hx => hx,
        fun _ => (inv.mem_iff s).mp hdup, by simp [hst], fun hc => absurd hst hc⟩
    · have hnone : dictGet c.recv_buffer s = none := by
        cases hg : dictGet c.recv_buffer s with
        | none => rfl
        | some w => rw [hg] at hdup; exact absurd rfl hdup
      have hnot : ¬ s ∈ seen := fun hm => hdup ((inv.mem_iff s).mpr hm)
      have hinv2 := add_new_inv payload N seen c inv s h1 h2 hnot
      obtain ⟨c2, heq, hd2, hs2, hb2, ha2, hc2⟩ :=
        hdp_new_eval c s (payload s) t hst inv.dir hnone
      have hRInv2 : RInv payload N (s :: seen) c2 :=
        RInv_fields payload N (s :: seen) _ c2 hinv2 hd2 hb2 ha2 hc2
      rw [heq]
      by_cases hcc : c2.is_chunk_complete CHUNK_SIZE = true
      · rw [if_pos hcc]
        have hlen : CHUNK_SIZE ≤ c2.chunk_data.length := by
          unfold Connection.is_chunk_complete at hcc
          simp only [Bool.and_eq_true, decide_eq_true_eq] at hcc
          exact hcc.2
        refine ⟨s :: seen, ⟨?_, Or.inr ⟨rfl, ?_⟩⟩,
          fun x hx => List.mem_cons_of_mem _ hx,
          fun _ => List.mem_cons_self _ _, by simp [hst], fun hc => absurd hst hc⟩
        · exact RInv_fields payload N (s :: seen) c2 _ hRInv2 rfl rfl rfl rfl
        · exact hlen
      · rw [if_neg hcc]
        have hdl : c2.is_download = true := by
          unfold Connection.is_download
          rw [hd2, inv.dir]
          rfl
        have hlt : c2.chunk_data.length < CHUNK_SIZE := by
          unfold Connection.is_chunk_complete at hcc
          simp only [hdl, Bool.true_and, decide_eq_true_eq] at hcc
          omega
        refine ⟨s :: seen, ⟨hRInv2, Or.inl ⟨?_, hlt⟩⟩,
          fun x hx => List.mem_cons_of_mem _ hx,
          fun _ => List.mem_cons_self _ _, by simp [hst], fun hc => absurd hst hc⟩
        rw [hs2]
        exact hst
  · rw [hdp_not_transfer c s (payload s) t hst]
    exact ⟨seen, ⟨inv, hstate⟩, fun x hx => hx, fun h => absurd h hst,
      by simp [hst], fun _ => rfl⟩

theorem runRecv_complete (es : List (ℚ × Nat × List Nat)) :
    ∀ c : Connection, c.state = ConnectionState.complete →
      runRecv c es = (c, 0, 0) := by
  induction es with
  | nil => intro c h; rfl
  | cons e rest ih =>
    intro c h
    have hne : c.state ≠ ConnectionState.transfer := by simp [h]
    simp only [runRecv, hdp_not_transfer c e.2.1 e.2.2 e.1 hne, ih c h]
    simp [h]

theorem runRecv_count_le (es : List (ℚ × Nat × List Nat)) :
    ∀ c : Connection, (runRecv c es).2.2 ≤ es.length := by
  induction es with
  | nil => intro c; simp [runRecv]
  | cons e rest ih =>
    intro c
    simp only [runRecv, List.length_cons]
    have := ih (handle_data_packet c e.2.1 e.2.2 e.1).1
    split <;> omega

theorem runRecv_inv (payload : Nat → List Nat) (N : Nat)
    (es : List (ℚ × Nat × List Nat)) :
    ∀ (c : Connection) (seen : List Nat), StInv payload N seen c →
    (∀ e ∈ es, 1 ≤ e.2.1 ∧ e.2.1 ≤ N ∧ e.2.2 = payload e.2.1) →
    ∃ seen2,
      StInv payload N seen2 (runRecv c es).1 ∧
      (∀ x ∈ seen, x ∈ seen2) ∧
      ((runRecv c es).1.state = ConnectionState.complete ∨
        ∀ e ∈ es, e.2.1 ∈ seen2) ∧
      (runRecv c es).2.1 = (runRecv c es).2.2 := by
  induction es with
  | nil =>
    intro c seen hInv hes
    exact ⟨seen, hInv, fun x hx => hx,
      Or.inr (fun e he => absurd he (List.not_mem_nil e)), rfl⟩
  | cons e rest ih =>
    intro c seen hInv hes
    obtain ⟨he1, he2, he3⟩ := hes e (List.mem_cons_self e rest)
    obtain ⟨seen1, hInv1, hsub1, hsmem1, hlen1, hid1⟩ :=
      hdp_step payload N seen c hInv e.2.1 e.1 he1 he2
    obtain ⟨seen2, hInv2, hsub2, hdisj2, hcnt2⟩ :=
      ih (handle_data_packet c e.2.1 (payload e.2.1) e.1).1 seen1 hInv1
        (fun e' he' => hes e' (List.mem_cons_of_mem _ he'))
    refine ⟨seen2, ?_, fun x hx => hsub2 x (hsub1 x hx), ?_, ?_⟩
    · simpa only [runRecv, he3] using hInv2
    · rcases hdisj2 with hcomp | hall
      · left
        simpa only [runRecv, he3] using hcomp
      · by_cases hst : c.state = ConnectionState.transfer
        · right
          intro e' he'
          rcases List.mem_cons.mp he' with rfl | hmem
          · exact hsub2 _ (hsmem1 hst)
          · exact hall e' hmem
        · obtain ⟨inv, hstc⟩ := hInv
          rcases hstc with ⟨h1', _⟩ | ⟨h1', _⟩
          · exact absurd h1' hst
          · left
            simp only [runRecv, he3, hid1 hst, runRecv_complete rest c h1']
            exact h1'
    · simp only [runRecv, he3]
      rw [hlen1, hcnt2]

theorem concatPayload_mono (payload : Nat → List Nat) (k : Nat) :
    ∀ m, k ≤ m →
      (concatPayload payload k).length ≤ (concatPayload payload m).length := by
  intro m
  induction m with
  | zero =>
    intro h
    simp [Nat.le_zero.mp h]
  | succ m ih =>
    intro h
    rcases Nat.lt_or_ge k (m + 1) with hlt | hge
    · refine le_trans (ih (by omega)) ?_
      simp [concatPayload]
    · have hk : k = m + 1 := by omega
      simp [hk]

theorem create_download_fields (ct : Option ℚ) :
    (create_download_connection ct).direction = TransferDirection.download ∧
    (create_download_connection ct).state = ConnectionState.transfer ∧
    (create_download_connection ct).ack_num = 0 ∧
    (create_download_connection ct).recv_buffer = [] ∧
    (create_download_connection ct).chunk_data = [] := by
  cases ct <;> exact ⟨rfl, rfl, rfl, rfl, rfl⟩

theorem StInv_init (payload : Nat → List Nat) (N : Nat) (ct : Option ℚ) :
    StInv payload N [] (create_download_connection ct) := by
  obtain ⟨hd, hs, ha, hb, hc⟩ := create_download_fields ct
  constructor
  · refine ⟨hd, ?_, ?_, ?_, ?_, ?_, ?_⟩
    · intro s hs2
      exact absurd hs2 (List.not_mem_nil s)
    · intro k
      rw [hb]
      simp [dictGet]
    · intro k hk
      exact absurd hk (List.not_mem_nil k)
    · intro j hj1 hj2
      rw [ha] at hj2
      omega
    · intro hcm
      exact absurd hcm (List.not_mem_nil _)
    · rw [hc, ha]
      rfl
  · left
    refine ⟨hs, ?_⟩
    rw [hc]
    simp [CHUNK_SIZE]

theorem recvMain (payload : Nat → List Nat) (N : Nat) (ct : Option ℚ)
    (es : List (ℚ × Nat × List Nat))
    (hes : ∀ e ∈ es, 1 ≤ e.2.1 ∧ e.2.1 ≤ N ∧ e.2.2 = payload e.2.1)
    (hall : ∀ s ∈ List.range' 1 N, ∃ e ∈ es, e.2.1 = s)
    (hpre : (concatPayload payload (N - 1)).length < CHUNK_SIZE) :
    (runRecv (create_download_connection ct) es).1.ack_num = N ∧
    (runRecv (create_download_connection ct) es).1.chunk_data =
      concatPayload payload N ∧
    (runRecv (create_download_connection ct) es).2.1 =
      (runRecv (create_download_connection ct) es).2.2 ∧
    (CHUNK_SIZE ≤ (concatPayload payload N).length →
      (runRecv (create_download_connection ct) es).1.state =
        ConnectionState.complete) := by
  obtain ⟨seen2, hSt, hsub, hdisj, hcnt⟩ :=
    runRecv_inv payload N es (create_download_connection ct) []
      (StInv_init payload N ct) hes
  obtain ⟨inv2, hstate2⟩ := hSt
  have hackN : (runRecv (create_download_connection ct) es).1.ack_num ≤ N := by
    by_cases h0 : (runRecv (create_download_connection ct) es).1.ack_num = 0
    · omega
    · have hm := inv2.low_mem (runRecv (create_download_connection ct) es).1.ack_num
        (by omega) (le_refl _)
      exact (inv2.seen_bounds _ hm).2
  have hackGe : N ≤ (runRecv (create_download_connection ct) es).1.ack_num := by
    rcases hdisj with hcomp | hall2
    · by_contra hlt
      push_neg at hlt
      rcases hstate2 with ⟨h1', _⟩ | ⟨_, h2'⟩
      · rw [h1'] at hcomp
        simp at hcomp
      · rw [inv2.chunk_eq] at h2'
        have hm := concatPayload_mono payload
          (runRecv (create_download_connection ct) es).1.ack_num (N - 1) (by omega)
        omega
    · by_contra hlt
      push_neg at hlt
      have hrange : (runRecv (create_download_connection ct) es).1.ack_num + 1 ∈
          List.range' 1 N := by
        rw [List.mem_range'_1]
        omega
      obtain ⟨e, he, heq⟩ := hall _ hrange
      exact inv2.next_not_mem (heq ▸ hall2 e he)
  have hack : (runRecv (create_download_connection ct) es).1.ack_num = N :=
    le_antisymm hackN hackGe
  refine ⟨hack, ?_, hcnt, ?_⟩
  · rw [inv2.chunk_eq, hack]
  · intro hcs
    rcases hstate2 with ⟨_, hlen⟩ | ⟨hcm, _⟩
    · rw [inv2.chunk_eq, hack] at hlen
      omega
    · exact hcm

/-- C5 (amended): a download connection fed any arrival sequence that
contains every packet of an `N`-packet chunk at least once (arbitrary
duplicates allowed) ends with `chunk_data` equal to the concatenation of
the payloads in sequence order and `ack_num = N`, provided no proper
prefix of the chunk already reaches `CHUNK_SIZE`; and exactly one ACK is
emitted per DATA packet that arrives while the connection is still in
`Transfer` — DATA arriving after the chunk has completed is dropped
without an ACK (which is what falsifies the claim as stated). -/
theorem sequence_delivery_amended (payload : Nat → List Nat) (N : Nat)
    (ct : Option ℚ) (es : List (ℚ × Nat × List Nat))
    (hes : ∀ e ∈ es, 1 ≤ e.2.1 ∧ e.2.1 ≤ N ∧ e.2.2 = payload e.2.1)
    (hall : ∀ s ∈ List.range' 1 N, ∃ e ∈ es, e.2.1 = s)
    (hpre : (concatPayload payload (N - 1)).length < CHUNK_SIZE) :
    (runRecv (create_download_connection ct) es).1.chunk_data =
      concatPayload payload N ∧
    (runRecv (create_download_connection ct) es).1.ack_num = N ∧
    (runRecv (create_download_connection ct) es).2.1 =
      (runRecv (create_download_connection ct) es).2.2 :=
  ⟨(recvMain payload N ct es hes hall hpre).2.1,
    (recvMain payload N ct es hes hall hpre).1,
    (recvMain payload N ct es hes hall hpre).2.2.1⟩

/-- Witness for `sequence_delivery_amended`: a one-packet chunk received
once, in order. -/
theorem sequence_delivery_amended_witness :
    ((concatPayload (fun _ => ([3] : List Nat)) 0).length < CHUNK_SIZE) ∧
    (runRecv (create_download_connection none)
        [((0 : ℚ), 1, [3])]).1.chunk_data =
      concatPayload (fun _ => ([3] : List Nat)) 1 :=
  ⟨by decide,
    (sequence_delivery_amended (fun _ => [3]) 1 none [((0 : ℚ), 1, [3])]
      (by decide) (by decide) (by decide)).1⟩

theorem concatPayloadCE_len : ∀ k, k ≤ 377 →
    (concatPayload payloadCE k).length = 1388 * k := by
  intro k
  induction k with
  | zero => intro _; rfl
  | succ k ih =>
    intro h
    have hk : ¬ (k + 1 = 378) := by omega
    simp only [concatPayload, List.length_append, ih (by omega), payloadCE,
      if_neg hk, List.length_replicate]
    ring

theorem concatPayload_succ (payload : Nat → List Nat) (k : Nat) :
    concatPayload payload (k + 1) =
      concatPayload payload k ++ payload (k + 1) := rfl

theorem concatPayloadCE_378 :
    (concatPayload payloadCE 378).length = 524288 := by
  have h := concatPayloadCE_len 377 (le_refl _)
  have hstep : concatPayload payloadCE 378 =
      concatPayload payloadCE 377 ++ payloadCE 378 :=
    concatPayload_succ payloadCE 377
  rw [hstep, List.length_append, h]
  simp [payloadCE]

theorem runRecv_append (l1 l2 : List (ℚ × Nat × List Nat)) :
    ∀ c, runRecv c (l1 ++ l2) =
      ((runRecv (runRecv c l1).1 l2).1,
        (runRecv c l1).2.1 + (runRecv (runRecv c l1).1 l2).2.1,
        (runRecv c l1).2.2 + (runRecv (runRecv c l1).1 l2).2.2) := by
  induction l1 with
  | nil => intro c; simp [runRecv]
  | cons e rest ih =>
    intro c
    simp only [List.cons_append, runRecv, List.append_eq]
    rw [ih]
    simp [Nat.add_assoc]

theorem runRecv_snoc_complete (l : List (ℚ × Nat × List Nat))
    (e : ℚ × Nat × List Nat) (c : Connection)
    (h : (runRecv c l).1.state = ConnectionState.complete) :
    (runRecv c (l ++ [e])).2.1 = (runRecv c l).2.1 := by
  rw [runRecv_append l [e] c, runRecv_complete [e] _ h]
  simp

theorem ce_es_bounds : ∀ e ∈ inOrderCE,
    1 ≤ e.2.1 ∧ e.2.1 ≤ 378 ∧ e.2.2 = payloadCE e.2.1 := by
  intro e he
  simp only [inOrderCE, List.mem_map] at he
  obtain ⟨i, hi, rfl⟩ := he
  simp only [List.mem_range] at hi
  exact ⟨by show 1 ≤ i + 1; omega, by show i + 1 ≤ 378; omega, rfl⟩

theorem ce_all_seqs : ∀ s ∈ List.range' 1 378, ∃ e ∈ inOrderCE, e.2.1 = s := by
  intro s hs
  rw [List.mem_range'_1] at hs
  refine ⟨((0 : ℚ), s, payloadCE s), ?_, rfl⟩
  simp only [inOrderCE, List.mem_map]
  refine ⟨s - 1, List.mem_range.mpr (by omega), ?_⟩
  have hs1 : s - 1 + 1 = s := by omega
  rw [hs1]

theorem ce_pre : (concatPayload payloadCE (378 - 1)).length < CHUNK_SIZE := by
  have h377 := concatPayloadCE_len 377 (le_refl _)
  show (concatPayload payloadCE 377).length < CHUNK_SIZE
  rw [h377]
  norm_num [CHUNK_SIZE]

theorem ce_complete :
    (runRecv (create_download_connection none) inOrderCE).1.state =
      ConnectionState.complete := by
  refine (recvMain payloadCE 378 none inOrderCE ce_es_bounds ce_all_seqs
    ce_pre).2.2.2 ?_
  rw [concatPayloadCE_378]
  norm_num [CHUNK_SIZE]

/-- C5 is false as stated: deliver the full 524 288-byte chunk in order
(378 DATA packets) and then one duplicate DATA packet.  The duplicate
arrives after the connection has left `Transfer` for `Complete`, so it
is dropped without an ACK: the number of ACKs emitted is strictly less
than the number of DATA packets received, contradicting "exactly one ACK
is emitted per received DATA packet". -/
theorem sequence_delivery_cex :
    (runRecv (create_download_connection none) dupTailCE).2.1 ≠
      dupTailCE.length := by
  intro hEq
  have hd : dupTailCE = inOrderCE ++ [((0 : ℚ), 1, payloadCE 1)] := rfl
  rw [hd] at hEq
  rw [runRecv_snoc_complete inOrderCE ((0 : ℚ), 1, payloadCE 1)
    (create_download_connection none) ce_complete] at hEq
  have hlen : (inOrderCE ++ [((0 : ℚ), 1, payloadCE 1)]).length = 379 := by
    simp [inOrderCE]
  rw [hlen] at hEq
  have hle : (runRecv (create_download_connection none) inOrderCE).2.1 ≤ 378 := by
    rw [(recvMain payloadCE 378 none inOrderCE ce_es_bounds ce_all_seqs
      ce_pre).2.2.1]
    have hc := runRecv_count_le inOrderCE (create_download_connection none)
    simpa [inOrderCE] using hc
  omega
